import Mathlib

/-!
Verification development for the execution-trace rendering pipeline of
`dask/diagnostics/profile_visualize.py` (functions `pprint_task`,
`get_colors`, `visualize`, `plot_tasks`, `plot_resources`).

The Python code is shallowly embedded: task expressions become an inductive
type, Python floats used as timestamps become rationals, Python exceptions
become an `Except` error type, and the bokeh figure objects become plain
structures holding exactly the fields this pipeline sets.
-/

/-- A leaf value sitting in a task expression.  For the purpose of
`pprint_task` a leaf is only ever tested for membership in the key set of
the dask graph; a value whose membership test raises `TypeError`
(e.g. an unhashable value) is modelled by `unhashable`. -/
inductive PyVal where
  | val (s : String)
  | unhashable
  deriving DecidableEq, Repr

/-- The callable at the head of a task tuple.  `simple name` is an ordinary
function whose `funcname` is `name`; `composed names` is a fused/composed
callable carrying a `funcs` attribute, whose members have `funcname`s
`names`.  (`funcname` lives in `dask/dot.py`, outside the provided sources;
functions are represented directly by their display names.) -/
inductive Func where
  | simple (name : String)
  | composed (names : List String)
  deriving DecidableEq, Repr

/-- Python exceptions that the embedded code can raise. -/
inductive Err where
  | emptyTrace      -- unpacking `zip(*results)` over an empty sequence
  | zeroDivision    -- ZeroDivisionError
  | keyError        -- dict lookup failure
  deriving DecidableEq, Repr

mutual
/-- Modelled from the spec: a value within a dask graph ("a task is either a
leaf value, a reference to another key, a call `(function, arg, ...)`
possibly with a composed/fused function, or a bounded sequence of
sub-expressions").  `istask` (from `dask/core.py`, outside the provided
sources) recognises exactly the `call` constructor: a nonempty tuple whose
head is callable; `tlist` is a Python list; everything else is a leaf. -/
inductive TaskExpr where
  | call (f : Func) (args : TList)
  | tlist (elems : TList)
  | leaf (v : PyVal)
inductive TList where
  | nil
  | cons (hd : TaskExpr) (tl : TList)
end

/-- Length of an argument list (`len(task[1:])` / `len(task)`). -/
def TList.length : TList → Nat
  | .nil => 0
  | .cons _ tl => 1 + TList.length tl

/-- `head` in `pprint_task`: `'('.join(funcname(f) for f in func.funcs)` for a
composed callable, else `funcname(task[0])`. -/
def headOf : Func → String
  | .simple n => n
  | .composed ns => String.intercalate "(" ns

/-- `tail` in `pprint_task`: `')' * len(func.funcs)` for a composed callable,
else `')'`. -/
def tailOf : Func → String
  | .simple _ => ")"
  | .composed ns => String.mk (List.replicate ns.length ')')

/-- `int(a / b)` on Python ints: true division followed by `int` truncates
toward zero (`Int.tdiv`); a zero divisor raises `ZeroDivisionError`. -/
def pyIntDiv (a b : Int) : Except Err Int :=
  if b = 0 then .error .zeroDivision else .ok (Int.tdiv a b)

mutual
/-- Embedding of `pprint_task(task, keys, label_size)`.
The `tlist` cases spell out `task2 = task[:3]` by arity (0, 1, 2, or ≥ 3
elements); `n = len(task2)` is then 1, 2 or 3, and `label_size2 =
int((label_size - 2 - 2*n) / n)`.  The trailing `, ...` appears exactly when
`len(task) > 3`.  Leaf values render `'_'` when `task in keys`, `'*'`
otherwise, also when the membership test raises `TypeError`. -/
def pprintTask (task : TaskExpr) (keys : List String) (label_size : Int) :
    Except Err String :=
  match task with
  | .call f args =>
    let head := headOf f
    let tail := tailOf f
    do
      let ls2 ← pyIntDiv (label_size - (head.length : Int) - (tail.length : Int))
        (TList.length args)
      if ls2 > 5 then
        let ss ← pprintArgs args keys ls2
        pure (head ++ "(" ++ String.intercalate ", " ss ++ tail)
      else
        pure (head ++ "(" ++ "..." ++ tail)
  | .tlist .nil => .error .zeroDivision
  | .tlist (.cons a .nil) => do
      let ls2 ← pyIntDiv (label_size - 2 - 2 * 1) 1
      let sa ← pprintTask a keys ls2
      pure ("[" ++ String.intercalate ", " [sa] ++ "]")
  | .tlist (.cons a (.cons b .nil)) => do
      let ls2 ← pyIntDiv (label_size - 2 - 2 * 2) 2
      let sa ← pprintTask a keys ls2
      let sb ← pprintTask b keys ls2
      pure ("[" ++ String.intercalate ", " [sa, sb] ++ "]")
  | .tlist (.cons a (.cons b (.cons c rest))) => do
      let ls2 ← pyIntDiv (label_size - 2 - 2 * 3) 3
      let sa ← pprintTask a keys ls2
      let sb ← pprintTask b keys ls2
      let sc ← pprintTask c keys ls2
      let body := String.intercalate ", " [sa, sb, sc]
      match rest with
      | .nil => pure ("[" ++ body ++ "]")
      | .cons _ _ => pure ("[" ++ body ++ ", ...]")
  | .leaf v =>
    match v with
    | .val s => pure (if keys.contains s then "_" else "*")
    | .unhashable => pure "*"

/-- `', '.join(pprint_task(t, keys, label_size2) for t in task[1:])`:
arguments are rendered left to right and the first exception propagates. -/
def pprintArgs (ts : TList) (keys : List String) (label_size : Int) :
    Except Err (List String) :=
  match ts with
  | .nil => pure []
  | .cons t ts2 => do
    let s ← pprintTask t keys label_size
    let rest ← pprintArgs ts2 keys label_size
    pure (s :: rest)
end

/-- Sequencing of a fuel-bounded step: fuel exhaustion (`none`) and raised
exceptions both short-circuit. -/
def obind {α β : Type} : Option (Except Err α) → (α → Option (Except Err β)) →
    Option (Except Err β)
  | none, _ => none
  | some (.error e), _ => some (.error e)
  | some (.ok a), f => f a

mutual
/-- Fuel-bounded variant of `pprintTask`: `none` exactly when the structural
depth of the expression exceeds the fuel.  Used to state termination of the
recursion independently of the budget. -/
def pprintTaskFuel : Nat → TaskExpr → List String → Int →
    Option (Except Err String)
  | 0, _, _, _ => none
  | fuel + 1, task, keys, label_size =>
    match task with
    | .call f args =>
      let head := headOf f
      let tail := tailOf f
      obind (some (pyIntDiv (label_size - (head.length : Int) - (tail.length : Int))
          (TList.length args))) fun ls2 =>
        if ls2 > 5 then
          obind (pprintArgsFuel fuel args keys ls2) fun ss =>
            some (.ok (head ++ "(" ++ String.intercalate ", " ss ++ tail))
        else some (.ok (head ++ "(" ++ "..." ++ tail))
    | .tlist .nil => some (.error .zeroDivision)
    | .tlist (.cons a .nil) =>
      obind (some (pyIntDiv (label_size - 2 - 2 * 1) 1)) fun ls2 =>
        obind (pprintTaskFuel fuel a keys ls2) fun sa =>
          some (.ok ("[" ++ String.intercalate ", " [sa] ++ "]"))
    | .tlist (.cons a (.cons b .nil)) =>
      obind (some (pyIntDiv (label_size - 2 - 2 * 2) 2)) fun ls2 =>
        obind (pprintTaskFuel fuel a keys ls2) fun sa =>
          obind (pprintTaskFuel fuel b keys ls2) fun sb =>
            some (.ok ("[" ++ String.intercalate ", " [sa, sb] ++ "]"))
    | .tlist (.cons a (.cons b (.cons c rest))) =>
      obind (some (pyIntDiv (label_size - 2 - 2 * 3) 3)) fun ls2 =>
        obind (pprintTaskFuel fuel a keys ls2) fun sa =>
          obind (pprintTaskFuel fuel b keys ls2) fun sb =>
            obind (pprintTaskFuel fuel c keys ls2) fun sc =>
              some (.ok
                (match rest with
                | .nil => "[" ++ String.intercalate ", " [sa, sb, sc] ++ "]"
                | .cons _ _ => "[" ++ String.intercalate ", " [sa, sb, sc] ++ ", ...]"))
    | .leaf v =>
      match v with
      | .val s => some (.ok (if keys.contains s then "_" else "*"))
      | .unhashable => some (.ok "*")

/-- Fuel-bounded variant of `pprintArgs`. -/
def pprintArgsFuel : Nat → TList → List String → Int →
    Option (Except Err (List String))
  | 0, _, _, _ => none
  | fuel + 1, ts, keys, label_size =>
    match ts with
    | .nil => some (.ok [])
    | .cons t ts2 =>
      obind (pprintTaskFuel fuel t keys label_size) fun s =>
        obind (pprintArgsFuel fuel ts2 keys label_size) fun rest =>
          some (.ok (s :: rest))
end

theorem obind_some_eq {α β : Type} (x : Except Err α) (g : α → Except Err β) :
    obind (some x) (fun a => some (g a)) = some (Except.bind x g) := by
  cases x <;> rfl

theorem some_ite {α : Type} (c : Prop) [Decidable c] (x y : Except Err α) :
    (if c then some x else some y) = some (if c then x else y) := by
  split <;> rfl

/-- With fuel at least the structural size of the expression, the fuel-bounded
renderer agrees with `pprintTask` (so the recursion of `pprint_task` is
well-founded on the expression structure, whatever the budget). -/
theorem pprintFuel_sound (fuel : Nat) :
    (∀ t : TaskExpr, sizeOf t ≤ fuel → ∀ keys ls,
      pprintTaskFuel fuel t keys ls = some (pprintTask t keys ls)) ∧
    (∀ ts : TList, sizeOf ts ≤ fuel → ∀ keys ls,
      pprintArgsFuel fuel ts keys ls = some (pprintArgs ts keys ls)) := by
  induction fuel with
  | zero =>
    constructor
    · intro t h _ _
      cases t <;> simp_arith at h
    · intro ts h _ _
      cases ts <;> simp_arith at h
  | succ fuel ih =>
    obtain ⟨ihT, ihL⟩ := ih
    constructor
    · intro t h keys ls
      match t with
      | .call f args =>
        have hargs : sizeOf args ≤ fuel := by simp_arith at h; omega
        simp only [pprintTaskFuel, pprintTask]
        simp only [ihL args hargs keys, obind_some_eq, some_ite]
        rfl
      | .tlist .nil => rfl
      | .tlist (.cons a .nil) =>
        have ha : sizeOf a ≤ fuel := by simp_arith at h; omega
        simp only [pprintTaskFuel, pprintTask]
        simp only [ihT a ha keys, obind_some_eq]
        rfl
      | .tlist (.cons a (.cons b .nil)) =>
        have ha : sizeOf a ≤ fuel := by simp_arith at h; omega
        have hb : sizeOf b ≤ fuel := by simp_arith at h; omega
        simp only [pprintTaskFuel, pprintTask]
        simp only [ihT a ha keys, ihT b hb keys, obind_some_eq]
        rfl
      | .tlist (.cons a (.cons b (.cons c rest))) =>
        have ha : sizeOf a ≤ fuel := by simp_arith at h; omega
        have hb : sizeOf b ≤ fuel := by simp_arith at h; omega
        have hc : sizeOf c ≤ fuel := by simp_arith at h; omega
        cases rest with
        | nil =>
          simp only [pprintTaskFuel, pprintTask]
          simp only [ihT a ha keys, ihT b hb keys, ihT c hc keys, obind_some_eq]
          rfl
        | cons d rest2 =>
          simp only [pprintTaskFuel, pprintTask]
          simp only [ihT a ha keys, ihT b hb keys, ihT c hc keys, obind_some_eq]
          rfl
      | .leaf v => cases v <;> rfl
    · intro ts h keys ls
      match ts with
      | .nil => rfl
      | .cons t ts2 =>
        have ht : sizeOf t ≤ fuel := by simp_arith at h; omega
        have hts : sizeOf ts2 ≤ fuel := by simp_arith at h; omega
        simp only [pprintArgsFuel, pprintArgs]
        simp only [ihT t ht keys, ihL ts2 hts keys, obind_some_eq]
        rfl

/-- Evaluation helper: a concrete run of the fuel-bounded renderer determines
the value of `pprintTask`. -/
theorem pprintTask_eval {fuel : Nat} {t : TaskExpr} {keys ls out}
    (hf : sizeOf t ≤ fuel) (he : pprintTaskFuel fuel t keys ls = some out) :
    pprintTask t keys ls = out := by
  have := (pprintFuel_sound fuel).1 t hf keys ls
  rw [this] at he
  exact Option.some.inj he

/-- Evaluation helper for argument lists. -/
theorem pprintArgs_eval {fuel : Nat} {ts : TList} {keys ls out}
    (hf : sizeOf ts ≤ fuel) (he : pprintArgsFuel fuel ts keys ls = some out) :
    pprintArgs ts keys ls = out := by
  have := (pprintFuel_sound fuel).2 ts hf keys ls
  rw [this] at he
  exact Option.some.inj he

example : pprintTask (.leaf (.val "x")) ["x"] 60 = .ok "_" := rfl

example :
    pprintTask
      (.call (.simple "add") (.cons (.leaf (.val "a")) (.cons (.leaf (.val "b")) .nil)))
      ["a", "b"] 60 = .ok "add(_, _)" := rfl

example : pprintTask (.call (.simple "add") .nil) [] 60 = .error .zeroDivision := rfl

/-- `', '.join(pprint_task(i, dsk, label_size) for i in tasks)`-style traversal
at the Python-list level: render every record's task, first exception wins. -/
def pprintList (ts : List TaskExpr) (keys : List String) (label_size : Int) :
    Except Err (List String) :=
  match ts with
  | [] => pure []
  | t :: ts2 => do
    let s ← pprintTask t keys label_size
    let rest ← pprintList ts2 keys label_size
    pure (s :: rest)

/-- The distinct elements of a list in order of first appearance: the key order
of a (insertion-ordered) Python dict built by `toolz.groupby`, and the output
order of `toolz.unique`. -/
def firstSeen {α : Type} [DecidableEq α] (l : List α) : List α :=
  l.foldl (fun acc x => if x ∈ acc then acc else acc ++ [x]) []

/-- One entry of `Profiler.results`: the namedtuple
`(key, task, start_time, end_time, worker_id)`.  Timestamps are rationals
(idealised floats); worker ids are abstract hashable ids. -/
structure ExecutionRecord where
  key : String
  task : TaskExpr
  start_time : ℚ
  end_time : ℚ
  worker_id : Nat

/-- The durations `[i.end_time - i.start_time for i in v]` of one group of
`groupby(itemgetter(4), results)`, in input order. -/
def slotDurations (results : List ExecutionRecord) (w : Nat) : List ℚ :=
  (results.filter (fun r => r.worker_id == w)).map (fun r => r.end_time - r.start_time)

/-- `timings`: association list from worker id (first-seen order) to its
duration list. -/
def timingsList (results : List ExecutionRecord) : List (Nat × List ℚ) :=
  (firstSeen (results.map (·.worker_id))).map (fun w => (w, slotDurations results w))

/-- Python `<` on lists of numbers: lexicographic; a strict prefix is smaller. -/
def ratListLt : List ℚ → List ℚ → Bool
  | _, [] => false
  | [], _ :: _ => true
  | a :: as, b :: bs => if a < b then true else if b < a then false else ratListLt as bs

/-- `sorted(timings.items(), key=itemgetter(1), reverse=True)`: a stable sort,
descending on the duration lists (which Python compares lexicographically).
Insertion sort under "key of the earlier element is not lexicographically
below the key of the later" is exactly this stable descending order. -/
def sortedTimings (results : List ExecutionRecord) : List (Nat × List ℚ) :=
  List.insertionSort (fun p q => ratListLt p.2 q.2 = false) (timingsList results)

/-- `id_lk`: worker id to its dense rank, i.e. its index in the sorted slot
sequence. -/
def rankOf (results : List ExecutionRecord) (w : Nat) : Option Nat :=
  (sortedTimings results).findIdx? (fun p => p.1 == w)

/-- Follows the spec's words (not the code): `total_busy` of a slot is the sum
of the durations of its records. -/
def spec_totalBusy (results : List ExecutionRecord) (w : Nat) : ℚ :=
  (slotDurations results w).sum

/-- `left = min(starts)` over all records. -/
def globalLeft (results : List ExecutionRecord) : ℚ :=
  ((results.map (·.start_time)).min?).getD 0

/-- `right = max(ends)` over all records. -/
def globalRight (results : List ExecutionRecord) : ℚ :=
  ((results.map (·.end_time)).max?).getD 0

/-- A palette catalog entry (e.g. `bokeh.palettes.brewer[name]`): a dict from
available sizes to swatch lists. -/
structure Palette where
  sizes : List Nat
  swatch : Nat → List String

/-- Python `min` over the palette's keys. -/
def pyMinNat (l : List Nat) : Nat := (l.min?).getD 0

/-- Python `max` over the palette's keys. -/
def pyMaxNat (l : List Nat) : Nat := (l.max?).getD 0

/-- `list(sorted(unique(funcs)))`. -/
def sortUnique (funcs : List String) : List String :=
  List.insertionSort (fun a b => a ≤ b) (firstSeen funcs)

/-- The color sequence zipped against the sorted distinct labels:
`cycle(palette_lookup[high])` when there are more labels than the largest
swatch (`zip` truncates the cycle at `n`), `palette_lookup[low]` when fewer
than the smallest, else the exact-size swatch. -/
def paletteColors (p : Palette) (n : Nat) : List String :=
  if n > pyMaxNat p.sizes then
    (List.range n).map (fun i => (p.swatch (pyMaxNat p.sizes)).getD (i % pyMaxNat p.sizes) "")
  else if n < pyMinNat p.sizes then p.swatch (pyMinNat p.sizes)
  else p.swatch n

/-- Embedding of `get_colors(palette, funcs)`: build `color_lookup =
dict(zip(unique_funcs, colors))` once and map every label through it.
`none` models the `KeyError` a malformed palette would raise at
`color_lookup[n]`. -/
def get_colors (p : Palette) (funcs : List String) : Option (List String) :=
  let unique_funcs := sortUnique funcs
  let lookup := List.zip unique_funcs (paletteColors p unique_funcs.length)
  funcs.mapM (fun f => lookup.lookup f)

/-- The fields of the bokeh figure that `plot_tasks` computes (title, tools and
the hover-tooltip boilerplate are constants and omitted). -/
structure TimelineChart where
  y_categories : List String
  x_range : ℚ × ℚ
  width : List ℚ
  x : List ℚ
  y : List Nat
  functions : List String
  color : List String
  key : List String
  deriving DecidableEq

/-- Embedding of `plot_tasks(results, dsk, palette, label_size)`.  Empty
`results` fail when unpacking `zip(*results)` before anything else happens; a
summarizer exception or palette lookup failure propagates and no chart is
produced. -/
def plotTasks (results : List ExecutionRecord) (p : Palette) (dsk : List String)
    (label_size : Int) : Except Err TimelineChart :=
  match results with
  | [] => .error .emptyTrace
  | _ :: _ =>
    let left := globalLeft results
    let right := globalRight results
    match pprintList (results.map (·.task)) dsk label_size with
    | .error e => .error e
    | .ok funcs =>
      match get_colors p funcs with
      | none => .error .keyError
      | some colors =>
        .ok
          { y_categories := (List.range (timingsList results).length).map
              (fun i => toString i)
            x_range := (0, right - left)
            width := results.map (fun r => r.end_time - r.start_time)
            x := results.map
              (fun r => (r.end_time - r.start_time) / 2 + r.start_time - left)
            y := results.map (fun r => (rankOf results r.worker_id).getD 0 + 1)
            functions := funcs
            color := colors
            key := results.map (·.key) }

/-- The fields of the bokeh figure that `plot_resources` computes. -/
structure ResourceChart where
  t : List ℚ
  cpu : List ℚ
  mem : List ℚ
  x_range : ℚ × ℚ
  y_range : ℚ × ℚ
  memory_range : ℚ × ℚ
  cpu_color : String
  mem_color : String
  deriving DecidableEq

/-- Embedding of `plot_resources(results, palette)`.  A result row is the
namedtuple `(t, mem, cpu)` — timestamp, then memory, then cpu — exactly as
`t, mem, cpu = zip(*results)` unpacks it.  The sample sequence is used in the
given order; nothing is sorted. -/
def plotResources (results : List (ℚ × ℚ × ℚ)) (p : Palette) :
    Except Err ResourceChart :=
  match results with
  | [] => .error .emptyTrace
  | _ :: _ =>
    let t := results.map (·.1)
    let mem := results.map (fun s => s.2.1)
    let cpu := results.map (fun s => s.2.2)
    let left := (t.min?).getD 0
    let right := (t.max?).getD 0
    let colors := p.swatch 6
    .ok
      { t := t.map (fun i => i - left)
        cpu := cpu
        mem := mem
        x_range := (0, right - left)
        y_range := (0, (cpu.max?).getD 0)
        memory_range := (0, (mem.max?).getD 0)
        cpu_color := colors.getD 0 ""
        mem_color := colors.getD 2 "" }

/-- Decidable equality of `Except` values, for concrete evaluations. -/
instance {ε α : Type} [DecidableEq ε] [DecidableEq α] : DecidableEq (Except ε α) :=
  fun x y =>
    match x, y with
    | .ok a, .ok b =>
      if h : a = b then .isTrue (by rw [h]) else .isFalse (by simp [h])
    | .error a, .error b =>
      if h : a = b then .isTrue (by rw [h]) else .isFalse (by simp [h])
    | .ok _, .error _ => .isFalse (by simp)
    | .error _, .ok _ => .isFalse (by simp)

theorem list_min?_iff {α : Type} [LinearOrder α] {l : List α} {m : α} :
    l.min? = some m ↔ m ∈ l ∧ ∀ b ∈ l, m ≤ b := by
  haveI : Std.Antisymm (fun x1 x2 : α => x1 ≤ x2) :=
    ⟨fun h h' => le_antisymm h h'⟩
  exact List.min?_eq_some_iff (fun a => le_refl a) (fun a b => min_choice a b)
    (fun _ _ _ => le_min_iff)

theorem list_max?_iff {α : Type} [LinearOrder α] {l : List α} {m : α} :
    l.max? = some m ↔ m ∈ l ∧ ∀ b ∈ l, b ≤ m := by
  haveI : Std.Antisymm (fun x1 x2 : α => x1 ≤ x2) :=
    ⟨fun h h' => le_antisymm h h'⟩
  exact List.max?_eq_some_iff (fun a => le_refl a) (fun a b => max_choice a b)
    (fun _ _ _ => max_le_iff)

theorem list_min?_perm {α : Type} [LinearOrder α] {l₁ l₂ : List α}
    (h : l₁.Perm l₂) : l₁.min? = l₂.min? := by
  cases h1 : l₁.min? with
  | none =>
    rw [List.min?_eq_none_iff] at h1
    subst h1
    rw [List.min?_eq_none_iff.mpr (List.Perm.eq_nil h.symm)]
  | some m =>
    rw [list_min?_iff] at h1
    exact (list_min?_iff.mpr ⟨h.mem_iff.mp h1.1, fun b hb => h1.2 b (h.mem_iff.mpr hb)⟩).symm

theorem list_max?_perm {α : Type} [LinearOrder α] {l₁ l₂ : List α}
    (h : l₁.Perm l₂) : l₁.max? = l₂.max? := by
  cases h1 : l₁.max? with
  | none =>
    rw [List.max?_eq_none_iff] at h1
    subst h1
    rw [List.max?_eq_none_iff.mpr (List.Perm.eq_nil h.symm)]
  | some m =>
    rw [list_max?_iff] at h1
    exact (list_max?_iff.mpr ⟨h.mem_iff.mp h1.1, fun b hb => h1.2 b (h.mem_iff.mpr hb)⟩).symm

theorem mapM_option_some {α β : Type} (g : α → Option β) (d : β) :
    ∀ l : List α, (∀ a ∈ l, (g a).isSome) →
      l.mapM g = some (l.map (fun a => (g a).getD d)) := by
  intro l
  induction l with
  | nil => intro _; rfl
  | cons a l ih =>
    intro h
    obtain ⟨b, hb⟩ := Option.isSome_iff_exists.mp (h a (List.mem_cons_self a l))
    rw [List.mapM_cons, hb, ih (fun x hx => h x (List.mem_cons_of_mem a hx))]
    simp [hb]

theorem mapM_option_get? {α β : Type} (g : α → Option β) :
    ∀ (l : List α) (out : List β), l.mapM g = some out →
      ∀ i, out.get? i = (l.get? i).bind g := by
  intro l
  induction l with
  | nil =>
    intro out h i
    rw [List.mapM_nil] at h
    cases h
    simp
  | cons a l ih =>
    intro out h i
    rw [List.mapM_cons] at h
    cases hga : g a with
    | none => rw [hga] at h; simp at h
    | some b =>
      rw [hga] at h
      cases hml : l.mapM g with
      | none => rw [hml] at h; simp at h
      | some rest =>
        rw [hml] at h
        simp at h
        subst h
        cases i with
        | zero => simp [hga]
        | succ i => simpa using ih rest hml i

theorem mapM_option_length {α β : Type} (g : α → Option β) :
    ∀ (l : List α) (out : List β), l.mapM g = some out → out.length = l.length := by
  intro l
  induction l with
  | nil =>
    intro out h
    rw [List.mapM_nil] at h
    cases h
    rfl
  | cons a l ih =>
    intro out h
    rw [List.mapM_cons] at h
    cases hga : g a with
    | none => rw [hga] at h; simp at h
    | some b =>
      rw [hga] at h
      cases hml : l.mapM g with
      | none => rw [hml] at h; simp at h
      | some rest =>
        rw [hml] at h
        simp at h
        subst h
        simp [ih rest hml]

theorem firstSeen_aux_mem {α : Type} [DecidableEq α] (l : List α) :
    ∀ (acc : List α) (x : α),
      (x ∈ l.foldl (fun acc y => if y ∈ acc then acc else acc ++ [y]) acc) ↔
        x ∈ acc ∨ x ∈ l := by
  induction l with
  | nil => intro acc x; simp
  | cons a l ih =>
    intro acc x
    simp only [List.foldl_cons]
    rw [ih]
    by_cases h : a ∈ acc
    · simp only [h, if_true, List.mem_cons]
      constructor
      · rintro (hx | hx)
        · exact Or.inl hx
        · exact Or.inr (Or.inr hx)
      · rintro (hx | hx | hx)
        · exact Or.inl hx
        · exact Or.inl (hx ▸ h)
        · exact Or.inr hx
    · simp only [h, if_false, List.mem_append, List.mem_singleton, List.mem_cons]
      tauto

theorem firstSeen_mem {α : Type} [DecidableEq α] {l : List α} {x : α} :
    x ∈ firstSeen l ↔ x ∈ l := by
  unfold firstSeen
  rw [firstSeen_aux_mem]
  simp

theorem firstSeen_aux_nodup {α : Type} [DecidableEq α] (l : List α) :
    ∀ acc : List α, acc.Nodup →
      (l.foldl (fun acc y => if y ∈ acc then acc else acc ++ [y]) acc).Nodup := by
  induction l with
  | nil => intro acc h; simpa using h
  | cons a l ih =>
    intro acc h
    simp only [List.foldl_cons]
    apply ih
    by_cases ha : a ∈ acc
    · simpa [ha] using h
    · simp only [ha, if_false]
      rw [List.nodup_append]
      exact ⟨h, List.nodup_singleton a,
        fun x hx hxa => ha ((List.mem_singleton.mp hxa) ▸ hx)⟩

theorem firstSeen_nodup {α : Type} [DecidableEq α] (l : List α) :
    (firstSeen l).Nodup :=
  firstSeen_aux_nodup l [] List.nodup_nil

theorem sortUnique_perm (funcs : List String) :
    (sortUnique funcs).Perm (firstSeen funcs) :=
  List.perm_insertionSort _ _

theorem sortUnique_nodup (funcs : List String) : (sortUnique funcs).Nodup :=
  ((sortUnique_perm funcs).nodup_iff).mpr (firstSeen_nodup funcs)

theorem mem_sortUnique {funcs : List String} {f : String} :
    f ∈ sortUnique funcs ↔ f ∈ funcs := by
  rw [(sortUnique_perm funcs).mem_iff, firstSeen_mem]

theorem sortUnique_sorted (funcs : List String) :
    List.Sorted (fun a b : String => a ≤ b) (sortUnique funcs) :=
  List.sorted_insertionSort _ _

theorem lookup_zip {β : Type} :
    ∀ (u : List String) (cs : List β), u.Nodup →
      ∀ (i : Nat) (hi : i < u.length) (_ : i < cs.length),
        (u.zip cs).lookup (u.get ⟨i, hi⟩) = cs.get? i := by
  intro u
  induction u with
  | nil => intro cs _ i hi; simp at hi
  | cons x u ih =>
    intro cs hnd i hi hic
    cases cs with
    | nil => simp at hic
    | cons c cs =>
      cases i with
      | zero => simp [List.lookup]
      | succ i =>
        have hi' : i < u.length := by simpa using hi
        have hx : (u.get ⟨i, hi'⟩ == x) = false := by
          rw [beq_eq_false_iff_ne]
          intro hEq
          exact (List.nodup_cons.mp hnd).1 (hEq ▸ List.get_mem u i hi')
        simp only [List.zip_cons_cons, List.get_cons_succ, List.lookup, hx]
        exact ih cs (List.nodup_cons.mp hnd).2 i hi' (by simpa using hic)

/-- The label-to-color map of `get_colors`: lookup in
`color_lookup = dict(zip(unique_funcs, colors))`. -/
def colorOf (p : Palette) (funcs : List String) (f : String) : Option String :=
  (List.zip (sortUnique funcs) (paletteColors p (sortUnique funcs).length)).lookup f

theorem get_colors_eq (p : Palette) (funcs : List String) :
    get_colors p funcs = funcs.mapM (colorOf p funcs) := rfl

theorem pyMin_le_pyMax {l : List Nat} (h : l ≠ []) : pyMinNat l ≤ pyMaxNat l := by
  cases l with
  | nil => exact absurd rfl h
  | cons x xs =>
    obtain ⟨a, ha⟩ : ∃ a, (x :: xs).min? = some a := ⟨_, List.min?_cons⟩
    obtain ⟨b, hb⟩ : ∃ b, (x :: xs).max? = some b := ⟨_, List.max?_cons⟩
    have hma := list_min?_iff.mp ha
    have hmb := list_max?_iff.mp hb
    unfold pyMinNat pyMaxNat
    rw [ha, hb]
    exact hmb.2 a hma.1

theorem paletteColors_length (p : Palette) (hne : p.sizes ≠ [])
    (hwf : ∀ k, k < pyMaxNat p.sizes + 1 → pyMinNat p.sizes ≤ k →
      (p.swatch k).length = k ∧ (p.swatch k).Nodup)
    (n : Nat) : n ≤ (paletteColors p n).length := by
  have hlh := pyMin_le_pyMax hne
  unfold paletteColors
  by_cases h1 : n > pyMaxNat p.sizes
  · simp [h1]
  · rw [if_neg h1]
    by_cases h2 : n < pyMinNat p.sizes
    · rw [if_pos h2]
      have := (hwf (pyMinNat p.sizes) (by omega) (le_refl _)).1
      omega
    · rw [if_neg h2]
      have := (hwf n (by omega) (by omega)).1
      omega

theorem paletteColors_nodup (p : Palette) (hne : p.sizes ≠ [])
    (hwf : ∀ k, k < pyMaxNat p.sizes + 1 → pyMinNat p.sizes ≤ k →
      (p.swatch k).length = k ∧ (p.swatch k).Nodup)
    (n : Nat) (hn : n ≤ pyMaxNat p.sizes) : (paletteColors p n).Nodup := by
  have hlh := pyMin_le_pyMax hne
  unfold paletteColors
  rw [if_neg (by omega)]
  by_cases h2 : n < pyMinNat p.sizes
  · rw [if_pos h2]
    exact (hwf (pyMinNat p.sizes) (by omega) (le_refl _)).2
  · rw [if_neg h2]
    exact (hwf n (by omega) (by omega)).2

theorem colorOf_unique_get (p : Palette) (funcs : List String)
    (hlen : (sortUnique funcs).length ≤ (paletteColors p (sortUnique funcs).length).length)
    (i : Nat) (hi : i < (sortUnique funcs).length) :
    colorOf p funcs ((sortUnique funcs).get ⟨i, hi⟩) =
      (paletteColors p (sortUnique funcs).length).get? i :=
  lookup_zip _ _ (sortUnique_nodup funcs) i hi (lt_of_lt_of_le hi hlen)

theorem colorOf_isSome (p : Palette) (funcs : List String) (f : String)
    (hf : f ∈ funcs)
    (hlen : (sortUnique funcs).length ≤ (paletteColors p (sortUnique funcs).length).length) :
    (colorOf p funcs f).isSome := by
  obtain ⟨⟨i, hi⟩, hget⟩ := List.mem_iff_get.mp (mem_sortUnique.mpr hf)
  rw [← hget, colorOf_unique_get p funcs hlen i hi,
    List.get?_eq_get (lt_of_lt_of_le hi hlen)]
  rfl

/-- The per-figure state that the stacking step of `visualize` touches. -/
structure Fig where
  x_range : ℚ × ℚ
  title : Option String
  xaxis_label : Option String
  min_border_top : Int
  min_border_bottom : Int
  min_border_left : Int
  min_border_right : Int
  deriving DecidableEq

/-- Embedding of the figure-stacking block of `visualize`: a single figure
passes through unchanged; otherwise every figure after the first adopts the
first figure's `x_range`, loses its title, and gets `min_border_top = 20`;
the figures of `figs[:1]` (the first only) lose their x-axis label and get
`min_border_bottom = 20`; every figure gets left/right borders of 75.
An empty figure list would hit `figs[0]` and raise. -/
def stackFigs (figs : List Fig) : Option (List Fig) :=
  match figs with
  | [] => none
  | [f] => some [f]
  | top :: rest =>
    let rest2 := rest.map
      (fun f => { f with x_range := top.x_range, title := none, min_border_top := 20 })
    let figs2 := { top with xaxis_label := none, min_border_bottom := 20 } :: rest2
    some (figs2.map (fun f => { f with min_border_left := 75, min_border_right := 75 }))

/-- A single-size palette used for concrete runs. -/
def palSmall : Palette :=
  { sizes := [1]
    swatch := fun k => if k = 1 then ["c"] else [] }

/-- A two-color palette used for concrete runs. -/
def palPair : Palette :=
  { sizes := [2]
    swatch := fun k => if k = 2 then ["r", "b"] else [] }

/-- One ordinary execution record whose task is a plain key reference. -/
def recSingle : ExecutionRecord :=
  { key := "k"
    task := .leaf (.val "k")
    start_time := 0
    end_time := 10
    worker_id := 0 }

/-- An execution record whose task is a zero-argument call `(f,)`. -/
def recZeroArg : ExecutionRecord :=
  { key := "k"
    task := .call (.simple "f") .nil
    start_time := 0
    end_time := 1
    worker_id := 0 }

/-- The chart that `plot_tasks` produces for `[recSingle]`. -/
def chartSingle : TimelineChart :=
  { y_categories := ["0"]
    x_range := (0, 10)
    width := [10]
    x := [5]
    y := [1]
    functions := ["_"]
    color := ["c"]
    key := ["k"] }

/-- Records for the slot-ranking claim: slot 0 runs one task of duration 10,
slot 1 runs two tasks of duration 6 each (total 12). -/
def recsLex : List ExecutionRecord :=
  [ { key := "a"
      task := .leaf (.val "a")
      start_time := 0
      end_time := 10
      worker_id := 0 },
    { key := "b"
      task := .leaf (.val "b")
      start_time := 0
      end_time := 6
      worker_id := 1 },
    { key := "c"
      task := .leaf (.val "c")
      start_time := 6
      end_time := 12
      worker_id := 1 } ]

/-- C3: the expression summarizer is NOT total: a zero-argument call (and an
empty list node) reach the division `int(... / len(task[1:]))` with a zero
divisor and raise `ZeroDivisionError`; only the leaf comparison failure is
swallowed (`*`).  This theorem evaluates the code at the failing inputs. -/
theorem pprintTask_zero_arg_call_raises :
    pprintTask (.call (.simple "add") .nil) [] 60 = .error .zeroDivision ∧
    pprintTask (.tlist .nil) [] 60 = .error .zeroDivision ∧
    pprintTask (.leaf .unhashable) [] 60 = .ok "*" :=
  ⟨rfl, rfl, rfl⟩

/-- C10: the summarizer's recursion is structurally well-founded regardless of
the budget: with any fuel at least the structural size of the expression, the
fuel-bounded renderer never exhausts its fuel and agrees with `pprintTask`,
for every key set and every budget. -/
theorem pprintTask_terminates (t : TaskExpr) (keys : List String)
    (label_size : Int) (fuel : Nat) (h : sizeOf t ≤ fuel) :
    pprintTaskFuel fuel t keys label_size = some (pprintTask t keys label_size) :=
  (pprintFuel_sound fuel).1 t h keys label_size

/-- A two-argument call used as a concrete expression. -/
def taskAdd2 : TaskExpr :=
  .call (.simple "add") (.cons (.leaf (.val "a")) (.cons (.leaf (.val "b")) .nil))

/-- Witness for `pprintTask_terminates` at a concrete expression and fuel. -/
theorem pprintTask_terminates_witness :
    pprintTaskFuel (sizeOf taskAdd2) taskAdd2 ["a", "b"] 60 =
      some (pprintTask taskAdd2 ["a", "b"] 60) ∧
    pprintTask taskAdd2 ["a", "b"] 60 = .ok "add(_, _)" :=
  ⟨pprintTask_terminates taskAdd2 ["a", "b"] 60 (sizeOf taskAdd2) (le_refl _), rfl⟩

/-- C2: the slot ranking does NOT order slots by summed `total_busy`: the code
sorts `(slot, list-of-durations)` pairs, so Python compares the duration lists
lexicographically.  Slot 1 is busier in total (12 > 10) yet slot 0 ranks
first because `[10] > [6, 6]` lexicographically. -/
theorem plotTasks_rank_lexicographic_bug :
    spec_totalBusy recsLex 1 > spec_totalBusy recsLex 0 ∧
    timingsList recsLex = [(0, [10]), (1, [6, 6])] ∧
    rankOf recsLex 0 = some 0 ∧ rankOf recsLex 1 = some 1 :=
  of_decide_eq_true (by with_unfolding_all rfl)

/-- Three figures with distinct ranges and titles, all carrying an x-axis
label, as stacked-profile charts do. -/
def figT1 : Fig :=
  { x_range := (0, 10)
    title := some "t1"
    xaxis_label := some "Time (s)"
    min_border_top := 0
    min_border_bottom := 0
    min_border_left := 0
    min_border_right := 0 }

/-- Second figure for the stacking run. -/
def figT2 : Fig := { figT1 with x_range := (0, 20), title := some "t2" }

/-- Third figure for the stacking run. -/
def figT3 : Fig := { figT1 with x_range := (0, 30), title := some "t3" }

/-- C6: stacking three charts: every chart after the first adopts the first
chart's range, loses its title and gets top margin 20, and all get side
margins 75 — but the x-axis label is removed from the FIRST chart only
(`figs[:1]`), so the middle chart keeps its label, contradicting "only the
last chart keeps it". -/
theorem stackFigs_axis_label_bug :
    ((stackFigs [figT1, figT2, figT3]).getD []).map (fun f => f.xaxis_label) =
      [none, some "Time (s)", some "Time (s)"] ∧
    ((stackFigs [figT1, figT2, figT3]).getD []).map (fun f => f.xaxis_label) ≠
      [none, none, some "Time (s)"] ∧
    ((stackFigs [figT1, figT2, figT3]).getD []).map (fun f => f.title) =
      [some "t1", none, none] ∧
    ((stackFigs [figT1, figT2, figT3]).getD []).map (fun f => f.x_range) =
      [(0, 10), (0, 10), (0, 10)] ∧
    ((stackFigs [figT1, figT2, figT3]).getD []).map
        (fun f => (f.min_border_left, f.min_border_right)) =
      [(75, 75), (75, 75), (75, 75)] ∧
    ((stackFigs [figT1, figT2, figT3]).getD []).map (fun f => f.min_border_top) =
      [0, 20, 20] :=
  of_decide_eq_true (by with_unfolding_all rfl)

/-- C7: both builders fail on empty input before any backend interaction
(`zip(*results)` unpacking raises), and a single resource sample succeeds —
but a single execution record does NOT always succeed: a record whose task is
a zero-argument call makes the summarizer raise `ZeroDivisionError`, so the
timeline builder fails even on single-record input. -/
theorem builders_empty_and_single_input :
    plotTasks [] palSmall ["k"] 60 = .error .emptyTrace ∧
    plotResources [] palSmall = .error .emptyTrace ∧
    plotResources [(0, 100, 10)] palSmall =
      .ok
        { t := [0]
          cpu := [10]
          mem := [100]
          x_range := (0, 0)
          y_range := (0, 10)
          memory_range := (0, 100)
          cpu_color := ""
          mem_color := "" } ∧
    plotTasks [recSingle] palSmall ["k"] 60 = .ok chartSingle ∧
    plotTasks [recZeroArg] palSmall ["k"] 60 = .error .zeroDivision :=
  of_decide_eq_true (by with_unfolding_all rfl)

/-- The resource samples named by the spec's worked example, read positionally
as the code does. -/
def samplesR : List (ℚ × ℚ × ℚ) := [(0, 10, 100), (1, 20, 150), (2, 15, 120)]

/-- C5 counterexample: the code unpacks a sample as `(t, mem, cpu)`, so on
`[(0,10,100),(1,20,150),(2,15,120)]` the primary (CPU) axis range is
`[0, 150]` — not the claimed `[0, 20]` — and the memory axis is `[0, 20]`. -/
theorem plotResources_axis_counterexample :
    (plotResources samplesR palSmall).map (fun c => c.y_range) = .ok (0, 150) ∧
    (plotResources samplesR palSmall).map (fun c => c.y_range) ≠ .ok (0, 20) ∧
    (plotResources samplesR palSmall).map (fun c => c.memory_range) = .ok (0, 20) ∧
    (plotResources samplesR palSmall).map (fun c => c.x_range) = .ok (0, 2) :=
  of_decide_eq_true (by with_unfolding_all rfl)

/-- Two resource samples given out of timestamp order. -/
def samplesUnsorted : List (ℚ × ℚ × ℚ) := [(1, 5, 5), (0, 7, 7)]

/-- The same two samples in timestamp order. -/
def samplesSorted : List (ℚ × ℚ × ℚ) := [(0, 7, 7), (1, 5, 5)]

/-- C8 counterexample: the resource builder does NOT sort its samples — the
series keep input order, so the chart built from unsorted samples differs
from the chart built from the same samples in timestamp order. -/
theorem plotResources_not_sorted_counterexample :
    (plotResources samplesUnsorted palSmall).map (fun c => c.t) = .ok [1, 0] ∧
    (plotResources samplesSorted palSmall).map (fun c => c.t) = .ok [0, 1] ∧
    samplesUnsorted.Perm samplesSorted ∧
    plotResources samplesUnsorted palSmall ≠ plotResources samplesSorted palSmall :=
  of_decide_eq_true (by with_unfolding_all rfl)

/-- A one-argument call sharing the head function name with `taskAdd2`. -/
def taskAdd1 : TaskExpr := .call (.simple "add") (.cons (.leaf (.val "a")) .nil)

/-- The head function name of a call expression (`funcname(task[0])`). -/
def taskHeadName : TaskExpr → Option String
  | .call f _ => some (headOf f)
  | _ => none

/-- Two records whose tasks share the head function name `add` but summarize
to different texts. -/
def recsHead : List ExecutionRecord :=
  [ { key := "x"
      task := taskAdd1
      start_time := 0
      end_time := 2
      worker_id := 0 },
    { key := "y"
      task := taskAdd2
      start_time := 0
      end_time := 2
      worker_id := 0 } ]

/-- C9 counterexample: colors are keyed on the FULL summarized text, not the
head function name: two records with head `add` render to `add(_)` and
`add(_, _)` and receive different colors. -/
theorem plotTasks_color_head_counterexample :
    taskHeadName taskAdd1 = some "add" ∧
    taskHeadName taskAdd2 = some "add" ∧
    (plotTasks recsHead palPair ["a", "b"] 60).map (fun c => c.functions) =
      .ok ["add(_)", "add(_, _)"] ∧
    (plotTasks recsHead palPair ["a", "b"] 60).map (fun c => c.color) =
      .ok ["r", "b"] ∧
    ("r" : String) ≠ "b" :=
  of_decide_eq_true (by with_unfolding_all rfl)

/-- C1: every rectangle of the timeline layout satisfies
`width = end_time - start_time`,
`x_center = start_time + width/2 - global_left` with `global_left` the least
`start_time` over all records (attained by one of them), and
`y = slot rank + 1` (1-based). -/
theorem plotTasks_rect_invariants
    (results : List ExecutionRecord) (p : Palette) (dsk : List String)
    (label_size : Int) (chart : TimelineChart)
    (hok : plotTasks results p dsk label_size = .ok chart) :
    (∀ i r, results.get? i = some r →
      chart.width.get? i = some (r.end_time - r.start_time) ∧
      chart.x.get? i =
        some (r.start_time + (r.end_time - r.start_time) / 2 - globalLeft results) ∧
      chart.y.get? i = some ((rankOf results r.worker_id).getD 0 + 1)) ∧
    globalLeft results ∈ results.map (·.start_time) ∧
    (∀ r ∈ results, globalLeft results ≤ r.start_time) := by
  cases results with
  | nil => exact absurd hok (by simp [plotTasks])
  | cons r0 rs =>
    obtain ⟨m, hm⟩ : ∃ m, ((r0 :: rs).map (·.start_time)).min? = some m := by
      rw [List.map_cons, List.min?_cons]
      exact ⟨_, rfl⟩
    have hgl : globalLeft (r0 :: rs) = m := by
      unfold globalLeft
      rw [hm]
      rfl
    have hspec := list_min?_iff.mp hm
    rw [← hgl] at hspec
    simp only [plotTasks] at hok
    split at hok
    · exact absurd hok (by simp)
    · split at hok
      · exact absurd hok (by simp)
      · injection hok with hok
        subst hok
        refine ⟨?_, hspec.1, ?_⟩
        · intro i r hir
          refine ⟨?_, ?_, ?_⟩
          · simp only [List.get?_map, hir, Option.map_some']
          · simp only [List.get?_map, hir, Option.map_some', Option.some.injEq]
            ring
          · simp only [List.get?_map, hir, Option.map_some']
        · intro r hr
          exact hspec.2 _ (List.mem_map_of_mem _ hr)

/-- Witness for `plotTasks_rect_invariants` on a concrete one-record run. -/
theorem plotTasks_rect_invariants_witness :
    plotTasks [recSingle] palSmall ["k"] 60 = .ok chartSingle ∧
    ((∀ i r, [recSingle].get? i = some r →
      chartSingle.width.get? i = some (r.end_time - r.start_time) ∧
      chartSingle.x.get? i =
        some (r.start_time + (r.end_time - r.start_time) / 2 -
          globalLeft [recSingle]) ∧
      chartSingle.y.get? i = some ((rankOf [recSingle] r.worker_id).getD 0 + 1)) ∧
    globalLeft [recSingle] ∈ [recSingle].map (·.start_time) ∧
    (∀ r ∈ [recSingle], globalLeft [recSingle] ≤ r.start_time)) :=
  have hok : plotTasks [recSingle] palSmall ["k"] 60 = .ok chartSingle :=
    of_decide_eq_true (by with_unfolding_all rfl)
  ⟨hok, plotTasks_rect_invariants [recSingle] palSmall ["k"] 60 chartSingle hok⟩

/-- C9 amended: within one timeline chart, the color of a record is a function
of its FULL summarized expression text: any two positions whose summarized
texts coincide receive the same color. -/
theorem plotTasks_color_full_label
    (results : List ExecutionRecord) (p : Palette) (dsk : List String)
    (label_size : Int) (chart : TimelineChart) (i j : Nat)
    (hok : plotTasks results p dsk label_size = .ok chart)
    (hfn : chart.functions.get? i = chart.functions.get? j) :
    chart.color.get? i = chart.color.get? j := by
  cases results with
  | nil => exact absurd hok (by simp [plotTasks])
  | cons r0 rs =>
    simp only [plotTasks] at hok
    split at hok
    · exact absurd hok (by simp)
    · split at hok
      · exact absurd hok (by simp)
      · rename_i e1 funcs hfuncs o2 colors hcolors
        injection hok with hok
        subst hok
        rw [get_colors_eq] at hcolors
        simp only at hfn ⊢
        rw [mapM_option_get? _ funcs colors hcolors i,
          mapM_option_get? _ funcs colors hcolors j, hfn]

/-- C5 amended: for every successful resource chart, each vertical axis starts
at 0 and ends exactly at the observed maximum of its series (the maximum is
attained and bounds every sample; no padding), reading samples positionally
as `(t, mem, cpu)`; the horizontal range is `[0, max t - min t]`. -/
theorem plotResources_axis_ranges
    (samples : List (ℚ × ℚ × ℚ)) (p : Palette) (chart : ResourceChart)
    (hok : plotResources samples p = .ok chart) :
    chart.y_range.1 = 0 ∧
    chart.y_range.2 ∈ samples.map (fun s => s.2.2) ∧
    (∀ s ∈ samples, s.2.2 ≤ chart.y_range.2) ∧
    chart.memory_range.1 = 0 ∧
    chart.memory_range.2 ∈ samples.map (fun s => s.2.1) ∧
    (∀ s ∈ samples, s.2.1 ≤ chart.memory_range.2) ∧
    chart.x_range.1 = 0 ∧
    chart.x_range.2 =
      ((samples.map (·.1)).max?).getD 0 - ((samples.map (·.1)).min?).getD 0 := by
  cases samples with
  | nil => exact absurd hok (by simp [plotResources])
  | cons s0 ss =>
    obtain ⟨mc, hmc⟩ : ∃ m, ((s0 :: ss).map (fun s => s.2.2)).max? = some m := by
      rw [List.map_cons, List.max?_cons]
      exact ⟨_, rfl⟩
    obtain ⟨mm, hmm⟩ : ∃ m, ((s0 :: ss).map (fun s => s.2.1)).max? = some m := by
      rw [List.map_cons, List.max?_cons]
      exact ⟨_, rfl⟩
    have hc := list_max?_iff.mp hmc
    have hm := list_max?_iff.mp hmm
    simp only [plotResources] at hok
    injection hok with hok
    subst hok
    simp only [hmc, hmm, Option.getD_some]
    refine ⟨by trivial, hc.1, ?_, by trivial, hm.1, ?_, by trivial, by trivial⟩
    · intro s hs
      exact hc.2 _ (List.mem_map_of_mem _ hs)
    · intro s hs
      exact hm.2 _ (List.mem_map_of_mem _ hs)

/-- The chart `plot_resources` builds from `samplesR`. -/
def chartR : ResourceChart :=
  { t := [0, 1, 2]
    cpu := [100, 150, 120]
    mem := [10, 20, 15]
    x_range := (0, 2)
    y_range := (0, 150)
    memory_range := (0, 20)
    cpu_color := ""
    mem_color := "" }

/-- Witness for `plotResources_axis_ranges` on the spec's worked example. -/
theorem plotResources_axis_ranges_witness :
    plotResources samplesR palSmall = .ok chartR ∧
    (chartR.y_range.1 = 0 ∧
    chartR.y_range.2 ∈ samplesR.map (fun s => s.2.2) ∧
    (∀ s ∈ samplesR, s.2.2 ≤ chartR.y_range.2) ∧
    chartR.memory_range.1 = 0 ∧
    chartR.memory_range.2 ∈ samplesR.map (fun s => s.2.1) ∧
    (∀ s ∈ samplesR, s.2.1 ≤ chartR.memory_range.2) ∧
    chartR.x_range.1 = 0 ∧
    chartR.x_range.2 =
      ((samplesR.map (·.1)).max?).getD 0 - ((samplesR.map (·.1)).min?).getD 0) :=
  have hok : plotResources samplesR palSmall = .ok chartR :=
    of_decide_eq_true (by with_unfolding_all rfl)
  ⟨hok, plotResources_axis_ranges samplesR palSmall chartR hok⟩

/-- C8 amended: the resource builder does not reorder its samples, but the
three axis ranges are built from minima/maxima and are therefore invariant
under any permutation of the sample sequence (the plotted series themselves
are not, as `plotResources_not_sorted_counterexample` shows). -/
theorem plotResources_ranges_perm_invariant
    (l₁ l₂ : List (ℚ × ℚ × ℚ)) (p : Palette) (c₁ c₂ : ResourceChart)
    (hperm : l₁.Perm l₂)
    (h1 : plotResources l₁ p = .ok c₁) (h2 : plotResources l₂ p = .ok c₂) :
    c₁.x_range = c₂.x_range ∧ c₁.y_range = c₂.y_range ∧
      c₁.memory_range = c₂.memory_range := by
  cases l₁ with
  | nil => exact absurd h1 (by simp [plotResources])
  | cons a₁ t₁ =>
    cases l₂ with
    | nil => exact absurd h2 (by simp [plotResources])
    | cons a₂ t₂ =>
      simp only [plotResources] at h1 h2
      injection h1 with h1
      injection h2 with h2
      subst h1
      subst h2
      have ht := hperm.map (fun s : ℚ × ℚ × ℚ => s.1)
      have hcpu := hperm.map (fun s : ℚ × ℚ × ℚ => s.2.2)
      have hmem := hperm.map (fun s : ℚ × ℚ × ℚ => s.2.1)
      refine ⟨?_, ?_, ?_⟩
      · simp only
        rw [list_min?_perm ht, list_max?_perm ht]
      · simp only
        rw [list_max?_perm hcpu]
      · simp only
        rw [list_max?_perm hmem]

/-- The chart `plot_resources` builds from `samplesUnsorted`. -/
def chartU : ResourceChart :=
  { t := [1, 0]
    cpu := [5, 7]
    mem := [5, 7]
    x_range := (0, 1)
    y_range := (0, 7)
    memory_range := (0, 7)
    cpu_color := ""
    mem_color := "" }

/-- The chart `plot_resources` builds from `samplesSorted`. -/
def chartS : ResourceChart :=
  { t := [0, 1]
    cpu := [7, 5]
    mem := [7, 5]
    x_range := (0, 1)
    y_range := (0, 7)
    memory_range := (0, 7)
    cpu_color := ""
    mem_color := "" }

/-- Witness for `plotResources_ranges_perm_invariant` on a concrete
permutation. -/
theorem plotResources_ranges_perm_invariant_witness :
    samplesUnsorted.Perm samplesSorted ∧
    plotResources samplesUnsorted palSmall = .ok chartU ∧
    plotResources samplesSorted palSmall = .ok chartS ∧
    (chartU.x_range = chartS.x_range ∧ chartU.y_range = chartS.y_range ∧
      chartU.memory_range = chartS.memory_range) :=
  have hp : samplesUnsorted.Perm samplesSorted :=
    of_decide_eq_true (by with_unfolding_all rfl)
  have h1 : plotResources samplesUnsorted palSmall = .ok chartU :=
    of_decide_eq_true (by with_unfolding_all rfl)
  have h2 : plotResources samplesSorted palSmall = .ok chartS :=
    of_decide_eq_true (by with_unfolding_all rfl)
  ⟨hp, h1, h2, plotResources_ranges_perm_invariant samplesUnsorted samplesSorted
    palSmall chartU chartS hp h1 h2⟩

/-- Three records: the first and third summarize identically (`add(_)`), the
second differs (`add(_, _)`). -/
def recsHeadW : List ExecutionRecord :=
  [ { key := "x"
      task := taskAdd1
      start_time := 0
      end_time := 2
      worker_id := 0 },
    { key := "y"
      task := taskAdd2
      start_time := 0
      end_time := 2
      worker_id := 0 },
    { key := "z"
      task := taskAdd1
      start_time := 0
      end_time := 2
      worker_id := 0 } ]

/-- The chart `plot_tasks` builds from `recsHeadW`. -/
def chartHeadW : TimelineChart :=
  { y_categories := ["0"]
    x_range := (0, 2)
    width := [2, 2, 2]
    x := [1, 1, 1]
    y := [1, 1, 1]
    functions := ["add(_)", "add(_, _)", "add(_)"]
    color := ["r", "b", "r"]
    key := ["x", "y", "z"] }

/-- Witness for `plotTasks_color_full_label`: positions 0 and 2 summarize to
the same text and indeed receive the same color. -/
theorem plotTasks_color_full_label_witness :
    plotTasks recsHeadW palPair ["a", "b"] 60 = .ok chartHeadW ∧
    chartHeadW.functions.get? 0 = chartHeadW.functions.get? 2 ∧
    chartHeadW.color.get? 0 = chartHeadW.color.get? 2 :=
  have hok : plotTasks recsHeadW palPair ["a", "b"] 60 = .ok chartHeadW :=
    of_decide_eq_true (by with_unfolding_all rfl)
  have hfn : chartHeadW.functions.get? 0 = chartHeadW.functions.get? 2 :=
    of_decide_eq_true (by with_unfolding_all rfl)
  ⟨hok, hfn, plotTasks_color_full_label recsHeadW palPair ["a", "b"] 60
    chartHeadW 0 2 hok hfn⟩

/-- C4: for a well-formed palette, `get_colors` succeeds and returns one color
per input label, every label drawn through one label-to-color map built over
the sorted distinct labels (so equal labels always receive equal colors);
when the distinct-label count is at most the largest available swatch size,
distinct labels receive distinct colors; when it exceeds it, the colors of
the sorted distinct labels repeat cyclically with period the largest size. -/
theorem getColors_label_color_contract
    (p : Palette) (funcs : List String)
    (hne : p.sizes ≠ [])
    (hwf : ∀ k, k < pyMaxNat p.sizes + 1 → pyMinNat p.sizes ≤ k →
      (p.swatch k).length = k ∧ (p.swatch k).Nodup) :
    get_colors p funcs = some (funcs.map (fun f => (colorOf p funcs f).getD "")) ∧
    (∀ out, get_colors p funcs = some out → out.length = funcs.length) ∧
    List.Sorted (fun a b : String => a ≤ b) (sortUnique funcs) ∧
    ((sortUnique funcs).length ≤ pyMaxNat p.sizes →
      ∀ f g, f ∈ funcs → g ∈ funcs → f ≠ g →
        colorOf p funcs f ≠ colorOf p funcs g) ∧
    (pyMaxNat p.sizes < (sortUnique funcs).length →
      ∀ i (hi : i < (sortUnique funcs).length),
        colorOf p funcs ((sortUnique funcs).get ⟨i, hi⟩) =
          some ((p.swatch (pyMaxNat p.sizes)).getD (i % pyMaxNat p.sizes) "")) := by
  have hlen := paletteColors_length p hne hwf (sortUnique funcs).length
  refine ⟨?_, ?_, sortUnique_sorted funcs, ?_, ?_⟩
  · rw [get_colors_eq]
    exact mapM_option_some _ "" funcs
      (fun f hf => colorOf_isSome p funcs f hf hlen)
  · intro out hout
    rw [get_colors_eq] at hout
    exact mapM_option_length _ funcs out hout
  · intro hle f g hf hg hfg
    obtain ⟨⟨i, hi⟩, hgi⟩ := List.mem_iff_get.mp (mem_sortUnique.mpr hf)
    obtain ⟨⟨j, hj⟩, hgj⟩ := List.mem_iff_get.mp (mem_sortUnique.mpr hg)
    have hij : i ≠ j := by
      intro hEq
      apply hfg
      rw [← hgi, ← hgj]
      subst hEq
      rfl
    rw [← hgi, ← hgj, colorOf_unique_get p funcs hlen i hi,
      colorOf_unique_get p funcs hlen j hj,
      List.get?_eq_get (lt_of_lt_of_le hi hlen),
      List.get?_eq_get (lt_of_lt_of_le hj hlen)]
    intro hsome
    have hval := Option.some.inj hsome
    have hnd := paletteColors_nodup p hne hwf (sortUnique funcs).length hle
    have hfin := (hnd.get_inj_iff).mp hval
    exact hij (congrArg Fin.val hfin)
  · intro hgt i hi
    rw [colorOf_unique_get p funcs hlen i hi]
    unfold paletteColors
    rw [if_pos hgt, List.get?_map, List.get?_range hi]
    rfl

/-- A concrete label sequence with two distinct labels and a repeat. -/
def funcsW : List String := ["g", "f", "f"]

/-- Witness for `getColors_label_color_contract` on `palPair` and `funcsW`. -/
theorem getColors_label_color_contract_witness :
    palPair.sizes ≠ [] ∧
    (∀ k, k < pyMaxNat palPair.sizes + 1 → pyMinNat palPair.sizes ≤ k →
      (palPair.swatch k).length = k ∧ (palPair.swatch k).Nodup) ∧
    (get_colors palPair funcsW =
      some (funcsW.map (fun f => (colorOf palPair funcsW f).getD "")) ∧
    (∀ out, get_colors palPair funcsW = some out → out.length = funcsW.length) ∧
    List.Sorted (fun a b : String => a ≤ b) (sortUnique funcsW) ∧
    ((sortUnique funcsW).length ≤ pyMaxNat palPair.sizes →
      ∀ f g, f ∈ funcsW → g ∈ funcsW → f ≠ g →
        colorOf palPair funcsW f ≠ colorOf palPair funcsW g) ∧
    (pyMaxNat palPair.sizes < (sortUnique funcsW).length →
      ∀ i (hi : i < (sortUnique funcsW).length),
        colorOf palPair funcsW ((sortUnique funcsW).get ⟨i, hi⟩) =
          some ((palPair.swatch (pyMaxNat palPair.sizes)).getD
            (i % pyMaxNat palPair.sizes) ""))) :=
  have h1 : palPair.sizes ≠ [] := by simp [palPair]
  have h2 : ∀ k, k < pyMaxNat palPair.sizes + 1 → pyMinNat palPair.sizes ≤ k →
      (palPair.swatch k).length = k ∧ (palPair.swatch k).Nodup :=
    of_decide_eq_true (by with_unfolding_all rfl)
  ⟨h1, h2, getColors_label_color_contract palPair funcsW h1 h2⟩
